import Mathlib

/-!
Verification of the task-graph scheduler, pattern detectors and consensus
verifier of the orchestrator code base, via a shallow embedding of the
Python sources into Lean definitions.

Conventions of the embedding:
* Python floats and Decimal amounts are modelled as rationals.
* Python datetimes are modelled as integer epoch seconds; a calendar day is
  the floor division of the epoch by 86400, mirroring datetime.date().
* Python dicts used as insertion-ordered maps are modelled as association
  lists with first-occurrence key order.
* Fallible steps return Except values instead of raising exceptions.
-/

namespace Spec2

/-- Mirrors orchestrator.models.task.TaskStatus. -/
inductive TaskStatus where
  | pending
  | running
  | completed
  | failed
  | cancelled
deriving DecidableEq

/-- Mirrors orchestrator.models.task.TaskType. -/
inductive TaskType where
  | plan
  | retrieve
  | analyze
  | complianceCheck
  | synthesize
  | verify
deriving DecidableEq

/-- Mirrors orchestrator.models.task.Task.  The created_at, sender,
recipient and metadata fields play no role in any scheduling decision and
are omitted; payload values are modelled as plain strings. -/
structure Task where
  id : String
  type : TaskType
  payload : List (String × String)
  priority : Int
  dependencies : List String
  status : TaskStatus
deriving DecidableEq

/-- Mirrors orchestrator.models.task.TaskResult (execution_time,
completed_at and logs omitted; data values modelled as plain strings). -/
structure TaskResult where
  task_id : String
  success : Bool
  data : List (String × String)
  error : Option String
deriving DecidableEq

/-- Mirrors orchestrator.models.task.TaskGraph: a task list plus directed
edges (from_task_id, to_task_id). -/
structure TaskGraph where
  tasks : List Task
  edges : List (String × String)
deriving DecidableEq

/-- Mirrors TaskGraph.add_task, which unconditionally appends. -/
def TaskGraph.add_task (g : TaskGraph) (t : Task) : TaskGraph :=
  { g with tasks := g.tasks ++ [t] }

/-- Mirrors TaskGraph.add_dependency, which unconditionally appends the
edge. -/
def TaskGraph.add_dependency (g : TaskGraph) (fromId toId : String) : TaskGraph :=
  { g with edges := g.edges ++ [(fromId, toId)] }

/-- Mirrors the filtering loop of TaskGraph.get_ready_tasks: keep tasks
with status PENDING such that no edge into the task comes from an
uncompleted id.  The per-task dependencies field is not consulted. -/
def TaskGraph.readyPending (g : TaskGraph) (completedIds : List String) : List Task :=
  g.tasks.filter (fun t =>
    t.status == TaskStatus.pending &&
      g.edges.all (fun e => !(e.2 == t.id) || completedIds.contains e.1))

/-- Stable insertion step: place x before the first element y with
le x y, keeping x after every earlier element it does not precede. -/
def pyInsertLe {α : Type} (le : α → α → Bool) (x : α) : List α → List α
  | [] => [x]
  | y :: ys => if le x y then x :: y :: ys else y :: pyInsertLe le x ys

/-- Stable sort by the boolean comparator le, modelling Python sorted:
elements tied under le keep their input order. -/
def pySort {α : Type} (le : α → α → Bool) : List α → List α
  | [] => []
  | x :: xs => pyInsertLe le x (pySort le xs)

/-- Comparator realising Python sorted(key priority, reverse True):
a may precede b exactly when the priority of b does not exceed that of a. -/
def priorityGe (a b : Task) : Bool := decide (b.priority ≤ a.priority)

/-- Mirrors TaskGraph.get_ready_tasks: the filtered tasks, sorted by
priority descending with a stable sort (Python sorted with reverse=True). -/
def TaskGraph.get_ready_tasks (g : TaskGraph) (completedIds : List String) : List Task :=
  pySort priorityGe (g.readyPending completedIds)

/-- Mirrors TaskGraph.is_complete. -/
def TaskGraph.is_complete (g : TaskGraph) (completedIds : List String) : Bool :=
  g.tasks.all (fun t => completedIds.contains t.id)

/-- Python dict assignment d[k] = v on an insertion-ordered association
list: overwrite an existing binding in place, else append. -/
def setKey (d : List (String × String)) (k v : String) : List (String × String) :=
  if d.any (fun p => p.1 == k) then
    d.map (fun p => if p.1 == k then (k, v) else p)
  else
    d ++ [(k, v)]

/-- Python dict.update applied binding by binding. -/
def dictUpdate (d upd : List (String × String)) : List (String × String) :=
  upd.foldl (fun acc p => setKey acc p.1 p.2) d

/-- Python dict membership lookup (first binding wins). -/
def lookupKey (d : List (String × String)) (k : String) : Option String :=
  (d.find? (fun p => p.1 == k)).map (fun p => p.2)

/-- State threaded through Orchestrator._execute_task_graph: the
task_results map, the completed_tasks set, and a log of every task id
submitted to an agent (each submission invokes the capability). -/
structure ExecState where
  results : List (String × TaskResult)
  completedIds : List String
  dispatchLog : List String
deriving DecidableEq

/-- Result-map assignment task_results[id] = r. -/
def ExecState.record (st : ExecState) (id : String) (r : TaskResult) : ExecState :=
  { st with results :=
      if st.results.any (fun p => p.1 == id) then
        st.results.map (fun p => if p.1 == id then (id, r) else p)
      else
        st.results ++ [(id, r)] }

/-- Set insertion completed_tasks.add(id). -/
def ExecState.complete (st : ExecState) (id : String) : ExecState :=
  { st with completedIds :=
      if st.completedIds.contains id then st.completedIds
      else st.completedIds ++ [id] }

/-- Mirrors Orchestrator._prepare_task_payload: copy the task payload,
merge the data of every successfully completed dependency, then add the
original query. -/
def prepare_task_payload (t : Task) (results : List (String × TaskResult))
    (originalQuery : String) : List (String × String) :=
  let merged := t.dependencies.foldl
    (fun acc depId =>
      match (results.find? (fun p => p.1 == depId)).map (fun p => p.2) with
      | some depResult => if depResult.success then dictUpdate acc depResult.data else acc
      | none => acc)
    t.payload
  setKey merged "original_query" originalQuery

/-- One round of Orchestrator._execute_task_graph: every ready task gets
its payload prepared from the round-start results, is dispatched, and its
TaskResult is recorded; only successful results extend completed_tasks.
The agent mapping is total on the TaskType enumeration, so the
missing-agent branch of the source is unreachable here.  An exception
escaping an agent is already normalised by the source into a failed
TaskResult, which the dispatch parameter models. -/
def execStep (dispatch : Task → TaskResult) (originalQuery : String)
    (roundResults : List (String × TaskResult)) (acc : ExecState) (t : Task) : ExecState :=
  let prepared := { t with payload := prepare_task_payload t roundResults originalQuery }
  let r := dispatch prepared
  let acc2 := { acc with dispatchLog := acc.dispatchLog ++ [t.id] }
  let acc3 := acc2.record t.id r
  if r.success then acc3.complete t.id else acc3

/-- Payload preparation reads the results map as it stood when the round
started, because the source only writes task_results after the whole
gathered batch returns. -/
def execRound (dispatch : Task → TaskResult) (originalQuery : String)
    (ready : List Task) (st : ExecState) : ExecState :=
  ready.foldl (execStep dispatch originalQuery st.results) st

/-- Terminal shape of the scheduling loop: the graph completed, the loop
broke because no task was ready (the deadlock warning branch), or the
fuel ran out while the loop was still spinning (modelling divergence of
the unbounded Python while loop). -/
inductive ExecOutcome where
  | finished (st : ExecState)
  | stalled (st : ExecState)
  | outOfFuel (st : ExecState)
deriving DecidableEq

/-- State carried by an outcome. -/
def ExecOutcome.state : ExecOutcome → ExecState
  | .finished st => st
  | .stalled st => st
  | .outOfFuel st => st

/-- Mirrors the while loop of Orchestrator._execute_task_graph, indexed by
fuel since the Python loop has no termination guarantee. -/
def execLoop (g : TaskGraph) (dispatch : Task → TaskResult) (originalQuery : String) :
    Nat → ExecState → ExecOutcome
  | 0, st => .outOfFuel st
  | fuel + 1, st =>
    if g.is_complete st.completedIds then .finished st
    else
      let ready := g.get_ready_tasks st.completedIds
      if ready.isEmpty then .stalled st
      else execLoop g dispatch originalQuery fuel (execRound dispatch originalQuery ready st)

/-- Initial state of _execute_task_graph: empty results, empty completed
set, nothing dispatched. -/
def initExecState : ExecState := ⟨[], [], []⟩

/-- Mirrors the tail of Orchestrator._execute_task_graph after the loop:
take the first SYNTHESIZE task, and if it has a recorded successful result
holding a report, return the report; in every other case the source
raises the generic exception below.  Both the finished and the stalled
exits of the loop reach this code unchanged. -/
def extractReport (g : TaskGraph) (st : ExecState) : Except String String :=
  match (g.tasks.filter (fun t => t.type == TaskType.synthesize)).head? with
  | none => .error "Failed to generate final report"
  | some finalTask =>
    match (st.results.find? (fun p => p.1 == finalTask.id)).map (fun p => p.2) with
    | none => .error "Failed to generate final report"
    | some finalResult =>
      if finalResult.success then
        match lookupKey finalResult.data "report" with
        | some report => .ok report
        | none => .error "Failed to generate final report"
      else .error "Failed to generate final report"

/-- Whole-run behaviour of Orchestrator._execute_task_graph: none models a
run still spinning after the given fuel; otherwise the loop terminated and
the report extraction ran. -/
def executeTaskGraph (g : TaskGraph) (dispatch : Task → TaskResult)
    (originalQuery : String) (fuel : Nat) : Option (Except String String) :=
  match execLoop g dispatch originalQuery fuel initExecState with
  | .outOfFuel _ => none
  | .finished st => some (extractReport g st)
  | .stalled st => some (extractReport g st)

/-- Mirrors orchestrator.models.transaction.RiskLevel. -/
inductive RiskLevel where
  | low
  | medium
  | high
  | critical
deriving DecidableEq

/-- Mirrors orchestrator.models.transaction.Transaction.  Decimal amounts
become rationals, the datetime becomes integer epoch seconds, and the
transaction type keeps its string value; unreferenced descriptive fields
are omitted. -/
structure Transaction where
  id : String
  ts : Int
  amount : ℚ
  transaction_type : String
  sender_id : String
  recipient_id : String
  reference : Option String
  risk_level : RiskLevel
deriving DecidableEq

/-- Python truthiness of an Optional[str]: None and the empty string are
falsy. -/
def pyTruthy : Option String → Bool
  | none => false
  | some s => !s.isEmpty

/-- Calendar-day number of an epoch second, mirroring datetime.date() as a
grouping key (floor division, distinct days give distinct numbers). -/
def pyDay (ts : Int) : Int := ts.fdiv 86400

/-- Hour of day of a naive UTC datetime built from epoch seconds. -/
def pyHour (ts : Int) : Int := (ts.emod 86400).ediv 3600

/-- Weekday with Monday = 0, as datetime.weekday(); 1970-01-01 was a
Thursday. -/
def pyWeekday (ts : Int) : Int := (ts.fdiv 86400 + 3).emod 7

/-- Month (1..12) of the civil date holding the given day number, via the
standard days-from-civil inversion. -/
def pyMonth (ts : Int) : Int :=
  let z := pyDay ts + 719468
  let era := z.fdiv 146097
  let doe := z - era * 146097
  let yoe := (doe - doe / 1460 + doe / 36524 - doe / 146096) / 365
  let doy := doe - (365 * yoe + yoe / 4 - yoe / 100)
  let mp := (5 * doy + 2) / 153
  if mp < 10 then mp + 3 else mp - 9

/-- Mirrors the risk_level_map of AnomalyDetector.extract_features. -/
def riskScore : RiskLevel → ℚ
  | .low => 0
  | .medium => 1
  | .high => 2
  | .critical => 3

/-- Mirrors the tx_type_map of AnomalyDetector.extract_features, with the
default 0 of dict.get. -/
def txTypeCode (s : String) : ℚ :=
  if s == "deposit" then 0
  else if s == "withdrawal" then 1
  else if s == "transfer" then 2
  else if s == "payment" then 3
  else if s == "exchange" then 4
  else if s == "wire" then 5
  else if s == "ach" then 6
  else if s == "card" then 7
  else 0

/-- Mirrors the per-transaction feature vector of
AnomalyDetector.extract_features. -/
def featureVec (tx : Transaction) : List ℚ :=
  [tx.amount, (pyHour tx.ts : ℚ), (pyWeekday tx.ts : ℚ), (pyMonth tx.ts : ℚ),
    riskScore tx.risk_level, txTypeCode tx.transaction_type]

/-- Mirrors AnomalyDetector.extract_features over a batch. -/
def extract_features (txs : List Transaction) : List (List ℚ) :=
  txs.map featureVec

/-- The fitted isolation forest, embedded as its per-row prediction
(-1 for anomaly, 1 for normal, as sklearn predicts each sample
independently) and per-row decision-function score. -/
structure IsoForest where
  predictRow : List ℚ → Int
  scoreRow : List ℚ → ℚ

/-- The fitted standard scaler, embedded as its per-row transform. -/
structure Scaler where
  transformRow : List ℚ → List ℚ

/-- Mirrors orchestrator.utils.anomaly_detection.AnomalyDetector.  The
sklearn estimators are external collaborators; their training procedures
enter the embedding as the parameters trainForest and trainScaler, and
the currently fitted models as forest and scaler. -/
structure AnomalyDetector where
  contamination : ℚ
  trainForest : List (List ℚ) → IsoForest
  trainScaler : List (List ℚ) → Scaler
  forest : IsoForest
  scaler : Scaler
  is_fitted : Bool

/-- Mirrors AnomalyDetector.__init__: the is_fitted flag starts False. -/
def mkAnomalyDetector (contamination : ℚ) (tf : List (List ℚ) → IsoForest)
    (tsc : List (List ℚ) → Scaler) (f0 : IsoForest) (s0 : Scaler) : AnomalyDetector :=
  ⟨contamination, tf, tsc, f0, s0, false⟩

/-- Mirrors AnomalyDetector.fit: an empty batch returns immediately and
changes nothing; otherwise the scaler and forest are fitted and the flag
is set. -/
def AnomalyDetector.fit (d : AnomalyDetector) (txs : List Transaction) : AnomalyDetector :=
  if txs.isEmpty then d
  else
    let features := extract_features txs
    let scaler := d.trainScaler features
    let forest := d.trainForest (features.map scaler.transformRow)
    { d with scaler := scaler, forest := forest, is_fitted := true }

/-- Mirrors AnomalyDetector.detect_anomalies: all-False on an empty batch
or an unfitted model, else the scaled rows classified by the forest with
-1 mapped to True. -/
def AnomalyDetector.detect_anomalies (d : AnomalyDetector) (txs : List Transaction) : List Bool :=
  if txs.isEmpty || !d.is_fitted then List.replicate txs.length false
  else ((extract_features txs).map d.scaler.transformRow).map
    (fun row => d.forest.predictRow row == -1)

/-- Mirrors AnomalyDetector.get_anomaly_scores: all-0.0 on an empty batch
or an unfitted model, else the negated decision-function scores. -/
def AnomalyDetector.get_anomaly_scores (d : AnomalyDetector) (txs : List Transaction) : List ℚ :=
  if txs.isEmpty || !d.is_fitted then List.replicate txs.length (0 : ℚ)
  else ((extract_features txs).map d.scaler.transformRow).map
    (fun row => -(d.forest.scoreRow row))

/-- Worker for first-occurrence deduplication: drop keys already seen. -/
def dedupKeysFrom {κ : Type} [DecidableEq κ] (seen : List κ) : List κ → List κ
  | [] => []
  | k :: ks =>
    if k ∈ seen then dedupKeysFrom seen ks
    else k :: dedupKeysFrom (k :: seen) ks

/-- First-occurrence deduplication, mirroring the key order of a Python
dict built by insertion. -/
def dedupKeys {κ : Type} [DecidableEq κ] (l : List κ) : List κ :=
  dedupKeysFrom [] l

/-- Grouping key of PatternDetector._detect_structuring: (sender id,
calendar day). -/
def txKey (tx : Transaction) : String × Int := (tx.sender_id, pyDay tx.ts)

/-- One emitted structuring pattern dict. -/
structure StructuringPattern where
  sender : String
  day : Int
  total_amount : ℚ
  transaction_count : Nat
  amounts : List ℚ
  confidence : ℚ
deriving DecidableEq

/-- Mirrors PatternDetector._detect_structuring: group transactions by
(sender, day) in first-occurrence order, skip groups of fewer than three,
and flag a group whose summed amount exceeds 10000 while every individual
amount stays below 10000, with confidence 0.8. -/
def detect_structuring (txs : List Transaction) : List StructuringPattern :=
  (dedupKeys (txs.map txKey)).filterMap (fun k =>
    let grp := txs.filter (fun tx => txKey tx == k)
    if grp.length < 3 then none
    else
      let amounts := grp.map (fun tx => tx.amount)
      let total := amounts.sum
      if 10000 < total ∧ ∀ a ∈ amounts, a < 10000 then
        some ⟨k.1, k.2, total, grp.length, amounts, 8/10⟩
      else none)

/-- One emitted layering pattern dict. -/
structure LayeringPattern where
  chain_length : Nat
  total_amount : ℚ
  entities_involved : Nat
  time_span : ℚ
  confidence : ℚ
deriving DecidableEq

/-- Chain extension loop of PatternDetector._detect_layering: up to ten
times, take every transaction whose sender is the recipient of the current
one, pick the first whose signed time difference is under 3600 seconds,
and stop on a missing candidate or a repeat. -/
def buildChain (txs : List Transaction) : Nat → Transaction → List Transaction → List Transaction
  | 0, _, chain => chain
  | n + 1, current, chain =>
    let nexts := txs.filter (fun t => t.sender_id == current.recipient_id)
    if nexts.isEmpty then chain
    else
      match nexts.find? (fun nt => nt.ts - current.ts < 3600) with
      | none => chain
      | some nt =>
        if chain.contains nt then chain
        else buildChain txs n nt (chain ++ [nt])

/-- Pattern dict built from a finished chain in
PatternDetector._detect_layering. -/
def mkLayeringPattern (chain : List Transaction) : LayeringPattern :=
  { chain_length := chain.length
    total_amount := (chain.map (fun t => t.amount)).sum
    entities_involved :=
      (dedupKeys ((chain.map (fun t => t.sender_id)) ++ (chain.map (fun t => t.recipient_id)))).length
    time_span :=
      ((((chain.getLast?.map (fun t => t.ts)).getD 0) - ((chain.head?.map (fun t => t.ts)).getD 0) : Int) : ℚ) / 3600
    confidence := min (9/10) ((chain.length : ℚ) * (2/10)) }

/-- Mirrors PatternDetector._detect_layering: every transaction with a
truthy reference starts a chain, the chain is grown greedily by
buildChain, and a chain of length at least three is flagged. -/
def detect_layering (txs : List Transaction) : List LayeringPattern :=
  txs.filterMap (fun tx =>
    if pyTruthy tx.reference then
      let chain := buildChain txs 10 tx [tx]
      if 3 ≤ chain.length then some (mkLayeringPattern chain) else none
    else none)

/-- Verdict of one verification method as consumed by
VerifierAgent._calculate_consensus: a confidence and a verified flag. -/
structure MethodResult where
  confidence : ℚ
  verified : Bool
deriving DecidableEq

/-- Builds the verdict the three verification methods of VerifierAgent
produce from a settled confidence score: verified means the confidence
exceeds 0.6. -/
def mkMethodResult (c : ℚ) : MethodResult := ⟨c, decide (6/10 < c)⟩

/-- Disagreement reasons appended by _calculate_consensus, keeping the
data each formatted message records. -/
inductive Reason where
  | belowThreshold (score threshold : ℚ)
  | methodsDisagree
deriving DecidableEq

/-- Mirrors VerifierAgent._calculate_consensus: the consensus score is the
mean confidence, consensus holds when the score reaches the threshold, a
below-threshold reason records the score and threshold, and a disagreement
reason is added when the set of verified flags has more than one element. -/
def calculate_consensus (rs : List MethodResult) (threshold : ℚ) :
    Bool × ℚ × List Reason :=
  let confidences := rs.map (fun r => r.confidence)
  let verifications := rs.map (fun r => r.verified)
  let consensus_score := confidences.sum / (confidences.length : ℚ)
  let consensus_reached := decide (threshold ≤ consensus_score)
  let reasons1 :=
    if threshold ≤ consensus_score then ([] : List Reason)
    else [Reason.belowThreshold consensus_score threshold]
  let reasons2 :=
    if 1 < (dedupKeys verifications).length then [Reason.methodsDisagree] else []
  (consensus_reached, consensus_score, reasons1 ++ reasons2)

/-- Lowercasing used by _determine_human_review_needed via str.lower. -/
def pyLower (s : String) : String := ⟨s.data.map Char.toLower⟩

/-- Character-list matching used to model the Python substring operator:
needleAtFront needle hay holds when needle starts hay. -/
def needleAtFront : List Char → List Char → Bool
  | [], _ => true
  | _ :: _, [] => false
  | n :: ns, h :: hs => n == h && needleAtFront ns hs

/-- Python substring test needle in hay on character lists. -/
def hasSub (needle : List Char) : List Char → Bool
  | [] => needle.isEmpty
  | c :: rest => needleAtFront needle (c :: rest) || hasSub needle rest

/-- High-risk pattern names of _determine_human_review_needed. -/
def high_risk_patterns : List String := ["structuring", "layering", "integration"]

/-- The substring test of review rule three: some high-risk name occurs in
the lowercased pattern type. -/
def highRiskSub (patternType : String) : Bool :=
  high_risk_patterns.any (fun rp => hasSub rp.data (pyLower patternType).data)

/-- Mirrors VerifierAgent._determine_human_review_needed, with the rules
evaluated in source order, first match winning.  Rule three tests whether
any high-risk name occurs as a substring of the lowercased pattern type. -/
def determine_human_review (consensus_reached : Bool) (consensus_score : ℚ)
    (pattern_type : String) (original_confidence : ℚ) : Bool :=
  if consensus_reached = true ∧ 8/10 < consensus_score then false
  else if consensus_reached = false then true
  else if highRiskSub pattern_type then true
  else if 8/10 < original_confidence ∧ consensus_score < 7/10 then true
  else false

/-- Review policy exactly as the claim words it: identical rule cascade,
except that rule three asks whether the finding type is an element of the
high-risk set rather than a substring match. -/
def claimHumanReviewMembership (consensus_reached : Bool) (consensus_score : ℚ)
    (pattern_type : String) (original_confidence : ℚ) : Bool :=
  if consensus_reached = true ∧ 8/10 < consensus_score then false
  else if consensus_reached = false then true
  else if pattern_type ∈ high_risk_patterns then true
  else if 8/10 < original_confidence ∧ consensus_score < 7/10 then true
  else false

/-- Transitive reachability along the dependency edges of a graph. -/
def Downstream (g : TaskGraph) (a b : String) : Prop :=
  Relation.TransGen (fun x y => (x, y) ∈ g.edges) a b

/-- Invariant of the scheduling loop once the id a can never complete:
a stays outside the completed set, and every id downstream of a is never
dispatched, never keyed in the results map, and never completed. -/
def BlockedInv (g : TaskGraph) (a : String) (st : ExecState) : Prop :=
  a ∉ st.completedIds ∧
    ∀ b, Downstream g a b →
      b ∉ st.dispatchLog ∧ (∀ p ∈ st.results, p.1 ≠ b) ∧ b ∉ st.completedIds

/-- Chain link relation of the layering detector: the recipient of the
first transaction is the sender of the second and the signed time
difference is under 3600 seconds. -/
def ChainStep (x y : Transaction) : Prop :=
  x.recipient_id = y.sender_id ∧ y.ts - x.ts < 3600

instance (x y : Transaction) : Decidable (ChainStep x y) := by
  unfold ChainStep; infer_instance

/-- Concrete task with id X used for the duplicate-id scenario. -/
def taskX : Task := ⟨"X", TaskType.plan, [], 0, [], TaskStatus.pending⟩

/-- Second concrete task carrying the same id X. -/
def taskX2 : Task := ⟨"X", TaskType.retrieve, [], 1, [], TaskStatus.pending⟩

/-- Concrete pending task declaring a dependency d0 that has no matching
edge. -/
def taskNoEdge : Task := ⟨"B", TaskType.analyze, [], 0, ["d0"], TaskStatus.pending⟩

/-- Graph holding taskNoEdge and no edges at all. -/
def graphNoEdge : TaskGraph := ⟨[taskNoEdge], []⟩

/-- Concrete consistent two-task chain: B declares and edges its
dependency on A. -/
def taskA : Task := ⟨"A", TaskType.retrieve, [], 1, [], TaskStatus.pending⟩

/-- Dependent task of the two-task chain. -/
def taskB : Task := ⟨"B", TaskType.analyze, [], 0, ["A"], TaskStatus.pending⟩

/-- Two-task chain graph with the edge mirroring the dependency list. -/
def graphAB : TaskGraph := ⟨[taskA, taskB], [("A", "B")]⟩

/-- Dispatch double that fails every task. -/
def failDispatch : Task → TaskResult := fun t => ⟨t.id, false, [], some "boom"⟩

/-- Dispatch double that succeeds on every task with an empty data map. -/
def okDispatch : Task → TaskResult := fun t => ⟨t.id, true, [], none⟩

/-- Two tasks forming a dependency 2-cycle. -/
def cycleTaskA : Task := ⟨"A", TaskType.retrieve, [], 0, ["B"], TaskStatus.pending⟩

/-- Partner task of the 2-cycle. -/
def cycleTaskB : Task := ⟨"B", TaskType.analyze, [], 0, ["A"], TaskStatus.pending⟩

/-- Graph with the 2-cycle A depends on B, B depends on A. -/
def graphCycle : TaskGraph := ⟨[cycleTaskA, cycleTaskB], [("A", "B"), ("B", "A")]⟩

/-- Cycle-free single-task graph without any SYNTHESIZE task. -/
def graphNoSynth : TaskGraph := ⟨[taskA], []⟩

/-- Method results for confidences 0.9, 0.3, 0.85 with the verified flag
each method derives (confidence above 0.6). -/
def methods3 : List MethodResult :=
  [mkMethodResult (9/10), mkMethodResult (3/10), mkMethodResult (17/20)]

/-- Method results for confidences 0.9, 0.85, 0.95. -/
def methodsHigh : List MethodResult :=
  [mkMethodResult (9/10), mkMethodResult (17/20), mkMethodResult (19/20)]

/-- Four same-day transactions of entity E with amount 3000 each. -/
def structTxs : List Transaction :=
  [⟨"t1", 0, 3000, "transfer", "E", "R", none, RiskLevel.low⟩,
   ⟨"t2", 100, 3000, "transfer", "E", "R", none, RiskLevel.low⟩,
   ⟨"t3", 200, 3000, "transfer", "E", "R", none, RiskLevel.low⟩,
   ⟨"t4", 300, 3000, "transfer", "E", "R", none, RiskLevel.low⟩]

/-- The single structuring finding the four transactions above produce. -/
def structExpected : StructuringPattern :=
  ⟨"E", 0, 12000, 4, [3000, 3000, 3000, 3000], 8/10⟩

/-- Three linked transactions forming a recipient-to-sender chain with
gaps of 100 seconds, none carrying a reference. -/
def chainNoRefTxs : List Transaction :=
  [⟨"u1", 0, 100, "transfer", "a", "b", none, RiskLevel.low⟩,
   ⟨"u2", 100, 100, "transfer", "b", "c", none, RiskLevel.low⟩,
   ⟨"u3", 200, 100, "transfer", "c", "d", none, RiskLevel.low⟩]

/-- The same chain with a reference on the first transaction only. -/
def chainRefTxs : List Transaction :=
  [⟨"u1", 0, 100, "transfer", "a", "b", some "r1", RiskLevel.low⟩,
   ⟨"u2", 100, 100, "transfer", "b", "c", none, RiskLevel.low⟩,
   ⟨"u3", 200, 100, "transfer", "c", "d", none, RiskLevel.low⟩]

/-- The layering finding the referenced chain produces: length 3, total
300, four entities, 200 second span, confidence min(0.9, 0.6). -/
def layerExpected : LayeringPattern := ⟨3, 300, 4, 1/18, 3/5⟩

/-- Concrete anomaly detector instance with trivial collaborator models. -/
def demoDetector : AnomalyDetector :=
  mkAnomalyDetector (1/10) (fun _ => ⟨fun _ => 1, fun _ => 0⟩)
    (fun _ => ⟨fun r => r⟩) ⟨fun _ => 1, fun _ => 0⟩ ⟨fun r => r⟩

/-! Helper lemmas about the stable sort. -/

theorem mem_pyInsertLe {α : Type} (le : α → α → Bool) (x a : α) (l : List α) :
    a ∈ pyInsertLe le x l ↔ a = x ∨ a ∈ l := by
  induction l with
  | nil => simp [pyInsertLe]
  | cons y ys ih =>
    by_cases h : le x y = true
    · simp [pyInsertLe, h]
    · simp only [pyInsertLe, h, if_false, Bool.false_eq_true, List.mem_cons, ih]
      tauto

theorem pyInsertLe_perm {α : Type} (le : α → α → Bool) (x : α) (l : List α) :
    List.Perm (pyInsertLe le x l) (x :: l) := by
  induction l with
  | nil => exact List.Perm.refl _
  | cons y ys ih =>
    by_cases h : le x y = true
    · simp [pyInsertLe, h]
    · simp only [pyInsertLe, h, if_false, Bool.false_eq_true]
      exact (ih.cons y).trans (List.Perm.swap x y ys)

theorem pySort_perm {α : Type} (le : α → α → Bool) (l : List α) :
    List.Perm (pySort le l) l := by
  induction l with
  | nil => exact List.Perm.refl _
  | cons x xs ih => exact (pyInsertLe_perm le x _).trans (ih.cons x)

theorem mem_pySort {α : Type} (le : α → α → Bool) (a : α) (l : List α) :
    a ∈ pySort le l ↔ a ∈ l :=
  (pySort_perm le l).mem_iff

theorem pairwise_pyInsertLe {α : Type} (le : α → α → Bool)
    (htrans : ∀ a b c, le a b = true → le b c = true → le a c = true)
    (htot : ∀ a b, le a b = true ∨ le b a = true)
    (x : α) (l : List α) (h : l.Pairwise (fun a b => le a b = true)) :
    (pyInsertLe le x l).Pairwise (fun a b => le a b = true) := by
  induction l with
  | nil => simp [pyInsertLe]
  | cons y ys ih =>
    obtain ⟨hy, hys⟩ := List.pairwise_cons.mp h
    by_cases hxy : le x y = true
    · simp only [pyInsertLe, hxy, if_true]
      refine List.pairwise_cons.mpr ⟨?_, h⟩
      intro b hb
      rcases List.mem_cons.mp hb with rfl | hb
      · exact hxy
      · exact htrans x y b hxy (hy b hb)
    · simp only [pyInsertLe, hxy, if_false, Bool.false_eq_true]
      refine List.pairwise_cons.mpr ⟨?_, ih hys⟩
      intro b hb
      rcases (mem_pyInsertLe le x b ys).mp hb with rfl | hb
      · rcases htot b y with h1 | h1
        · exact absurd h1 hxy
        · exact h1
      · exact hy b hb

theorem pySort_pairwise {α : Type} (le : α → α → Bool)
    (htrans : ∀ a b c, le a b = true → le b c = true → le a c = true)
    (htot : ∀ a b, le a b = true ∨ le b a = true)
    (l : List α) : (pySort le l).Pairwise (fun a b => le a b = true) := by
  induction l with
  | nil => simp [pySort]
  | cons x xs ih => exact pairwise_pyInsertLe le htrans htot x _ ih

theorem pyInsertLe_filter {α : Type} (le : α → α → Bool) (p : α → Bool) (x : α) (l : List α)
    (hx : ∀ b, p b = true → p x = true → le x b = true) :
    (pyInsertLe le x l).filter p = if p x then x :: l.filter p else l.filter p := by
  induction l with
  | nil => simp [pyInsertLe, List.filter_cons, List.filter_nil]
  | cons y ys ih =>
    by_cases hxy : le x y = true
    · simp only [pyInsertLe, hxy, if_true, List.filter_cons]
    · simp only [pyInsertLe, hxy, if_false, Bool.false_eq_true, List.filter_cons]
      rw [ih]
      by_cases hpy : p y = true
      · by_cases hpx : p x = true
        · exact absurd (hx y hpy hpx) hxy
        · simp [hpy, hpx, List.filter_cons]
      · by_cases hpx : p x = true
        · simp [hpy, hpx, List.filter_cons]
        · simp [hpy, hpx, List.filter_cons]

theorem pySort_filter {α : Type} (le : α → α → Bool) (p : α → Bool)
    (hp : ∀ a b, p a = true → p b = true → le a b = true) (l : List α) :
    (pySort le l).filter p = l.filter p := by
  induction l with
  | nil => rfl
  | cons x xs ih =>
    show (pyInsertLe le x (pySort le xs)).filter p = _
    rw [pyInsertLe_filter le p x _ (fun b hb hbx => hp x b hbx hb), ih, List.filter_cons]

/-! Claim C1: soundness, ordering and stability of get_ready_tasks. -/

/-- C1 counterexample: readiness is decided from the edges alone, so a
pending task declaring a dependency d0 with no matching edge is returned
from the empty completed set even though d0 is not completed, refuting the
claim for graphs whose dependency lists are not mirrored by edges. -/
theorem getReadyTasks_deps_cex :
    taskNoEdge ∈ graphNoEdge.get_ready_tasks [] ∧
      "d0" ∈ taskNoEdge.dependencies ∧ "d0" ∉ ([] : List String) := by
  decide

/-- C1 (amended): on every graph whose per-task dependency lists are
mirrored by the edge set, get_ready_tasks returns only pending tasks whose
declared dependencies are all completed, in priority-descending order,
with ties keeping the insertion order of the task list. -/
theorem getReadyTasks_sound :
    ∀ (g : TaskGraph) (completedIds : List String),
      (∀ t ∈ g.tasks, ∀ d ∈ t.dependencies, (d, t.id) ∈ g.edges) →
      (∀ t ∈ g.get_ready_tasks completedIds,
          t.status = TaskStatus.pending ∧ ∀ d ∈ t.dependencies, d ∈ completedIds)
      ∧ (g.get_ready_tasks completedIds).Pairwise (fun a b => b.priority ≤ a.priority)
      ∧ ∀ p : Int, (g.get_ready_tasks completedIds).filter (fun t => t.priority == p)
          = (g.readyPending completedIds).filter (fun t => t.priority == p) := by
  intro g completedIds hcons
  refine ⟨?_, ?_, ?_⟩
  · intro t ht
    rw [TaskGraph.get_ready_tasks, mem_pySort, TaskGraph.readyPending, List.mem_filter] at ht
    obtain ⟨htask, hpred⟩ := ht
    rw [Bool.and_eq_true] at hpred
    obtain ⟨hstat, hall⟩ := hpred
    refine ⟨by simpa using hstat, ?_⟩
    intro d hd
    have hedge := hcons t htask d hd
    rw [List.all_eq_true] at hall
    have := hall _ hedge
    simpa using this
  · have hpw := pySort_pairwise priorityGe
      (fun a b c hab hbc => by
        simp only [priorityGe, decide_eq_true_eq] at hab hbc ⊢
        exact le_trans hbc hab)
      (fun a b => by
        simp only [priorityGe, decide_eq_true_eq]
        exact le_total b.priority a.priority)
      (g.readyPending completedIds)
    exact hpw.imp (fun h => by simpa [priorityGe] using h)
  · intro p
    exact pySort_filter priorityGe (fun t => t.priority == p)
      (fun a b ha hb => by
        simp only [beq_iff_eq] at ha hb
        simp [priorityGe, ha, hb]) _

/-- C1 witness: the consistent two-task chain instantiates the theorem. -/
theorem getReadyTasks_sound_witness :
    (∀ t ∈ graphAB.get_ready_tasks ["A"],
        t.status = TaskStatus.pending ∧ ∀ d ∈ t.dependencies, d ∈ ["A"])
    ∧ (graphAB.get_ready_tasks ["A"]).Pairwise (fun a b => b.priority ≤ a.priority)
    ∧ ∀ p : Int, (graphAB.get_ready_tasks ["A"]).filter (fun t => t.priority == p)
        = (graphAB.readyPending ["A"]).filter (fun t => t.priority == p) :=
  getReadyTasks_sound graphAB ["A"] (by decide)

/-! Claim C8: add_task never rejects a duplicate id. -/

/-- C8 counterexample: adding a second task with the already present id X
extends the task list instead of failing and leaving it unchanged. -/
theorem addTask_duplicate_cex :
    ((TaskGraph.mk [taskX] []).add_task taskX2).tasks = [taskX, taskX2]
    ∧ taskX2.id = taskX.id
    ∧ ((TaskGraph.mk [taskX] []).add_task taskX2).tasks ≠ [taskX] := by
  decide

/-- C8 (amended): add_task appends unconditionally; in particular a task
whose id is already present is still appended, raising the count of tasks
carrying that id by one, and the edges are untouched. -/
theorem addTask_appends :
    ∀ (g : TaskGraph) (t : Task),
      (g.add_task t).tasks = g.tasks ++ [t]
      ∧ ((g.add_task t).tasks.filter (fun u => u.id == t.id)).length
          = (g.tasks.filter (fun u => u.id == t.id)).length + 1
      ∧ (g.add_task t).edges = g.edges := by
  intro g t
  refine ⟨rfl, ?_, rfl⟩
  simp [TaskGraph.add_task, List.filter_append, List.filter_cons]

/-! Claim C9: readiness never consults the dependencies field. -/

/-- C9: a pending task with a non-empty dependencies list but no incoming
edge is returned as ready even from the empty completed set, because
get_ready_tasks reads only the edge list. -/
theorem getReadyTasks_ignores_deps :
    ∀ (g : TaskGraph) (t : Task), t ∈ g.tasks → t.status = TaskStatus.pending →
      t.dependencies ≠ [] → (∀ e ∈ g.edges, e.2 ≠ t.id) →
      t ∈ g.get_ready_tasks [] := by
  intro g t htask hstat _hdeps hnoedge
  rw [TaskGraph.get_ready_tasks, mem_pySort, TaskGraph.readyPending, List.mem_filter]
  refine ⟨htask, ?_⟩
  rw [Bool.and_eq_true]
  constructor
  · simpa using hstat
  · rw [List.all_eq_true]
    intro e he
    have := hnoedge e he
    simp [this]

/-- C9 witness: the concrete no-edge graph instantiates the theorem. -/
theorem getReadyTasks_ignores_deps_witness :
    taskNoEdge ∈ graphNoEdge.get_ready_tasks [] :=
  getReadyTasks_ignores_deps graphNoEdge taskNoEdge (by decide) (by decide)
    (by decide) (by decide)


/-! Helper lemmas about first-occurrence deduplication. -/

theorem mem_dedupKeysFrom {κ : Type} [DecidableEq κ] (l : List κ) :
    ∀ (seen : List κ) (a : κ), a ∈ dedupKeysFrom seen l ↔ a ∈ l ∧ a ∉ seen := by
  induction l with
  | nil => intro seen a; simp [dedupKeysFrom]
  | cons k ks ih =>
    intro seen a
    by_cases hk : k ∈ seen
    · rw [dedupKeysFrom, if_pos hk, ih seen a]
      constructor
      · rintro ⟨ha, hs⟩; exact ⟨List.mem_cons_of_mem _ ha, hs⟩
      · rintro ⟨ha, hs⟩
        rcases List.mem_cons.mp ha with rfl | ha
        · exact absurd hk hs
        · exact ⟨ha, hs⟩
    · rw [dedupKeysFrom, if_neg hk]
      constructor
      · intro h
        rcases List.mem_cons.mp h with rfl | h2
        · exact ⟨List.mem_cons_self _ _, hk⟩
        · obtain ⟨ha, hs⟩ := (ih (k :: seen) a).mp h2
          exact ⟨List.mem_cons_of_mem _ ha, fun hseen => hs (List.mem_cons_of_mem _ hseen)⟩
      · rintro ⟨ha, hs⟩
        rcases List.mem_cons.mp ha with rfl | ha2
        · exact List.mem_cons_self _ _
        · by_cases hak : a = k
          · exact hak ▸ List.mem_cons_self _ _
          · refine List.mem_cons_of_mem _ ((ih (k :: seen) a).mpr ⟨ha2, ?_⟩)
            intro h2
            rcases List.mem_cons.mp h2 with h3 | h3
            · exact hak h3
            · exact hs h3

theorem nodup_dedupKeysFrom {κ : Type} [DecidableEq κ] (l : List κ) :
    ∀ seen : List κ, (dedupKeysFrom seen l).Nodup := by
  induction l with
  | nil => intro seen; simp [dedupKeysFrom]
  | cons k ks ih =>
    intro seen
    by_cases hk : k ∈ seen
    · rw [dedupKeysFrom, if_pos hk]; exact ih seen
    · rw [dedupKeysFrom, if_neg hk]
      refine List.nodup_cons.mpr ⟨?_, ih _⟩
      intro hmem
      rw [mem_dedupKeysFrom] at hmem
      exact hmem.2 (List.mem_cons_self k seen)

theorem mem_dedupKeys {κ : Type} [DecidableEq κ] (l : List κ) (a : κ) :
    a ∈ dedupKeys l ↔ a ∈ l := by
  rw [dedupKeys, mem_dedupKeysFrom]
  simp

theorem nodup_dedupKeys {κ : Type} [DecidableEq κ] (l : List κ) : (dedupKeys l).Nodup :=
  nodup_dedupKeysFrom l []

theorem one_lt_dedupKeys_length {κ : Type} [DecidableEq κ] (l : List κ) :
    1 < (dedupKeys l).length ↔ ∃ a ∈ l, ∃ b ∈ l, a ≠ b := by
  constructor
  · intro h
    match hd : dedupKeys l with
    | [] => rw [hd] at h; simp at h
    | [c] => rw [hd] at h; simp at h
    | a :: b :: t =>
      have ha : a ∈ dedupKeys l := by rw [hd]; exact List.mem_cons_self _ _
      have hb : b ∈ dedupKeys l := by rw [hd]; simp
      have hnd := nodup_dedupKeys l
      rw [hd] at hnd
      have hab : a ≠ b := by
        intro he
        exact (List.nodup_cons.mp hnd).1 (he ▸ List.mem_cons_self b t)
      exact ⟨a, (mem_dedupKeys l a).mp ha, b, (mem_dedupKeys l b).mp hb, hab⟩
  · rintro ⟨a, ha, b, hb, hab⟩
    have ha2 : a ∈ dedupKeys l := (mem_dedupKeys l a).mpr ha
    have hb2 : b ∈ dedupKeys l := (mem_dedupKeys l b).mpr hb
    match hd : dedupKeys l with
    | [] => rw [hd] at ha2; simp at ha2
    | [c] =>
      rw [hd] at ha2 hb2
      simp at ha2 hb2
      exact absurd (ha2.trans hb2.symm) hab
    | c :: d :: t => simp

theorem bool_exists_ne_iff (l : List Bool) :
    (∃ a ∈ l, ∃ b ∈ l, a ≠ b) ↔ (true ∈ l ∧ false ∈ l) := by
  constructor
  · rintro ⟨a, ha, b, hb, hab⟩
    cases a <;> cases b <;> simp_all
  · rintro ⟨ht, hf⟩
    exact ⟨true, ht, false, hf, by simp⟩

/-! Claim C3: consensus calculation. -/

/-- C3 counterexample: at confidences 0.9, 0.3, 0.85 the consensus score
is 41/60, which is not above the threshold 0.8, refuting the stated
instance in which the mean was said to lie above the threshold. -/
theorem consensus_mean_below_threshold_cex :
    (calculate_consensus methods3 (8/10)).2.1 = 41/60
    ∧ ¬ ((8:ℚ)/10 ≤ (calculate_consensus methods3 (8/10)).2.1) := by
  have hscore : (calculate_consensus methods3 (8/10)).2.1 = 41/60 := by
    norm_num [calculate_consensus, methods3, mkMethodResult]
  refine ⟨hscore, ?_⟩
  rw [hscore]
  norm_num

/-- C3 (amended): for every non-empty method-result list, the consensus
score is the mean confidence, consensus is reached exactly when the score
reaches the threshold, and the disagreement reasons are non-empty exactly
when consensus fails or the verified flags are not unanimous; at
confidences 0.9, 0.3, 0.85 with threshold 0.8 both reasons fire, the mean
41/60 being below the threshold. -/
theorem consensus_correct :
    (∀ (rs : List MethodResult) (threshold : ℚ), rs ≠ [] →
      (calculate_consensus rs threshold).2.1
          = (rs.map (fun r => r.confidence)).sum / (rs.length : ℚ)
      ∧ ((calculate_consensus rs threshold).1 = true ↔
            threshold ≤ (calculate_consensus rs threshold).2.1)
      ∧ ((calculate_consensus rs threshold).2.2 ≠ [] ↔
            ((calculate_consensus rs threshold).2.1 < threshold
              ∨ ((∃ x ∈ rs, x.verified = true) ∧ (∃ y ∈ rs, y.verified = false)))))
    ∧ (calculate_consensus methods3 (8/10)).2.2
        = [Reason.belowThreshold (41/60) (8/10), Reason.methodsDisagree] := by
  constructor
  · intro rs threshold _hne
    have hdis : (1 < (dedupKeys (rs.map (fun r => r.verified))).length) ↔
        ((∃ x ∈ rs, x.verified = true) ∧ (∃ y ∈ rs, y.verified = false)) := by
      rw [one_lt_dedupKeys_length, bool_exists_ne_iff]
      simp [List.mem_map]
    refine ⟨?_, ?_, ?_⟩
    · show (rs.map (fun r => r.confidence)).sum
          / (((rs.map (fun r => r.confidence)).length : Nat) : ℚ) = _
      rw [List.length_map]
    · exact decide_eq_true_iff
    · show ((if threshold ≤ (calculate_consensus rs threshold).2.1 then ([] : List Reason)
          else [Reason.belowThreshold (calculate_consensus rs threshold).2.1 threshold]) ++
          (if 1 < (dedupKeys (rs.map (fun r => r.verified))).length
            then [Reason.methodsDisagree] else [])) ≠ [] ↔ _
      by_cases hr : threshold ≤ (calculate_consensus rs threshold).2.1
      · rw [if_pos hr]
        by_cases hd : 1 < (dedupKeys (rs.map (fun r => r.verified))).length
        · rw [if_pos hd]
          simp [not_lt.mpr hr, hdis.mp hd]
        · rw [if_neg hd]
          simp only [List.nil_append, ne_eq, not_true_eq_false]
          constructor
          · intro h; exact h.elim
          · rintro (h | h)
            · exact absurd hr (not_le.mpr h)
            · exact absurd (hdis.mpr h) hd
      · rw [if_neg hr]
        constructor
        · intro _; exact Or.inl (not_le.mp hr)
        · intro _; simp
  · have hv1 : (6:ℚ)/10 < 9/10 := by norm_num
    have hv2 : ¬((6:ℚ)/10 < 3/10) := by norm_num
    have hv3 : (6:ℚ)/10 < 17/20 := by norm_num
    have hddd : (1 < (dedupKeys [true, false, true]).length) := by decide
    simp only [calculate_consensus, methods3, mkMethodResult, decide_eq_true hv1,
      decide_eq_false hv2, decide_eq_true hv3, List.map_cons, List.map_nil]
    rw [if_pos hddd, if_neg (by norm_num)]
    norm_num

/-- C3 witness: the theorem instantiated at the three high confidences. -/
theorem consensus_correct_witness :
    (calculate_consensus methodsHigh (8/10)).2.1
        = (methodsHigh.map (fun r => r.confidence)).sum / (methodsHigh.length : ℚ)
    ∧ ((calculate_consensus methodsHigh (8/10)).1 = true ↔
          (8:ℚ)/10 ≤ (calculate_consensus methodsHigh (8/10)).2.1)
    ∧ ((calculate_consensus methodsHigh (8/10)).2.2 ≠ [] ↔
          ((calculate_consensus methodsHigh (8/10)).2.1 < 8/10
            ∨ ((∃ x ∈ methodsHigh, x.verified = true)
                ∧ (∃ y ∈ methodsHigh, y.verified = false)))) :=
  consensus_correct.1 methodsHigh (8/10) (by decide)

/-! Claim C4: the human-review policy. -/

/-- C4 counterexample: rule three of the source is a substring test, so
the non-member type sublayering (containing layering) triggers review
while the claimed membership rule would not. -/
theorem humanReview_substring_cex :
    determine_human_review true (3/4) "sublayering" (1/2) = true
    ∧ claimHumanReviewMembership true (3/4) "sublayering" (1/2) = false := by
  constructor
  · rw [determine_human_review]
    rw [if_neg (by norm_num), if_neg (by norm_num), if_pos (by decide)]
  · rw [claimHumanReviewMembership]
    rw [if_neg (by norm_num), if_neg (by norm_num), if_neg (by decide), if_neg (by norm_num)]

/-- C4 (amended): review is required exactly when consensus failed, or the
score is at most 0.8 and either a high-risk name occurs as a substring of
the lowercased type or the original confidence exceeds 0.8 while the score
is below 0.7 (the first-match cascade of the source); at confidences
0.9, 0.85, 0.95 and threshold 0.8 the score is 0.9, consensus holds and no
review is required. -/
theorem humanReview_correct :
    (∀ (cr : Bool) (cs : ℚ) (pt : String) (oc : ℚ),
        determine_human_review cr cs pt oc = true ↔
          (cr = false ∨ (cr = true ∧ cs ≤ 8/10
            ∧ (highRiskSub pt = true ∨ ((8:ℚ)/10 < oc ∧ cs < 7/10)))))
    ∧ (calculate_consensus methodsHigh (8/10)).2.1 = 9/10
    ∧ (calculate_consensus methodsHigh (8/10)).1 = true
    ∧ determine_human_review (calculate_consensus methodsHigh (8/10)).1
        (calculate_consensus methodsHigh (8/10)).2.1 "outlier" (9/10) = false := by
  have hscore : (calculate_consensus methodsHigh (8/10)).2.1 = 9/10 := by
    norm_num [calculate_consensus, methodsHigh, mkMethodResult]
  have hreached : (calculate_consensus methodsHigh (8/10)).1 = true := by
    rw [show (calculate_consensus methodsHigh (8/10)).1
        = decide ((8:ℚ)/10 ≤ (calculate_consensus methodsHigh (8/10)).2.1) from rfl]
    rw [decide_eq_true_eq, hscore]
    norm_num
  refine ⟨?_, hscore, hreached, ?_⟩
  · intro cr cs pt oc
    cases cr
    · rw [determine_human_review]
      rw [if_neg (by simp), if_pos rfl]
      simp
    · rw [determine_human_review]
      by_cases h1 : (8:ℚ)/10 < cs
      · rw [if_pos ⟨rfl, h1⟩]
        simp [not_le.mpr h1]
      · have hle : cs ≤ 8/10 := not_lt.mp h1
        rw [if_neg (fun hc => h1 hc.2), if_neg (by simp)]
        by_cases h3 : highRiskSub pt = true
        · rw [if_pos h3]; simp [hle, h3]
        · rw [if_neg h3]
          by_cases h4 : (8:ℚ)/10 < oc ∧ ((cs:ℚ) < 7/10)
          · rw [if_pos h4]
            simp [hle, h3, h4.1, h4.2]
          · rw [if_neg h4]
            simp only [Bool.false_eq_true, false_iff, not_or, not_and]
            constructor
            · simp
            · intro _ _
              exact ⟨h3, fun hoc hcs => h4 ⟨hoc, hcs⟩⟩
  · rw [hreached, hscore, determine_human_review]
    rw [if_pos ⟨rfl, by norm_num⟩]

/-! Claim C5: the structuring detector. -/

theorem length_filter_filterMap_keyed {κ P : Type} [DecidableEq κ]
    (f : κ → Option P) (keyP : P → Bool) (k : κ)
    (hf : ∀ (k2 : κ) (q : P), f k2 = some q → (keyP q = true ↔ k2 = k)) :
    ∀ l : List κ, l.Nodup →
      ((l.filterMap f).filter keyP).length = if k ∈ l ∧ (f k).isSome then 1 else 0 := by
  intro l
  induction l with
  | nil => intro _; simp
  | cons a l ih =>
    intro hnd
    obtain ⟨hal, hl⟩ := List.nodup_cons.mp hnd
    rw [List.filterMap_cons]
    cases hfa : f a with
    | none =>
      rw [ih hl]
      by_cases hak : k = a
      · subst hak
        simp [hfa, hal]
      · simp [List.mem_cons, hak]
    | some q =>
      rw [List.filter_cons]
      have hkey := hf a q hfa
      by_cases hak : a = k
      · subst hak
        rw [if_pos (hkey.mpr rfl), List.length_cons, ih hl]
        simp [hal, hfa]
      · rw [if_neg (fun h => hak (hkey.mp h)), ih hl]
        have hka : ¬(k = a) := fun h => hak h.symm
        simp [List.mem_cons, hka]

theorem ite_one_zero_congr {A C : Prop} {iA : Decidable A} {iC : Decidable C} (h : A ↔ C) :
    (if A then (1 : Nat) else 0) = if C then 1 else 0 := by
  by_cases hC : C
  · rw [if_pos hC, if_pos (h.mpr hC)]
  · rw [if_neg hC, if_neg (fun hA => hC (h.mp hA))]

/-- C5: for every record collection and every (sender, day) key, exactly
one structuring finding is emitted for that group when the group has at
least three records, their sum exceeds 10000 and every amount is below
10000, and zero otherwise; every finding carries confidence 0.8; the four
3000-amount same-day records of entity E yield exactly the one expected
finding. -/
theorem structuring_correct :
    (∀ (txs : List Transaction) (s : String) (d : Int),
        ((detect_structuring txs).filter (fun p => p.sender == s && p.day == d)).length
          = (if 3 ≤ (txs.filter (fun tx => txKey tx == (s, d))).length
                ∧ 10000 < ((txs.filter (fun tx => txKey tx == (s, d))).map (fun tx => tx.amount)).sum
                ∧ (∀ tx ∈ txs.filter (fun tx => txKey tx == (s, d)), tx.amount < 10000)
              then 1 else 0))
    ∧ (∀ txs : List Transaction, ∀ p ∈ detect_structuring txs, p.confidence = 8/10)
    ∧ detect_structuring structTxs = [structExpected] := by
  refine ⟨?_, ?_, ?_⟩
  · intro txs s d
    rw [detect_structuring]
    rw [length_filter_filterMap_keyed _ _ ((s, d) : String × Int) ?hf _
      (nodup_dedupKeys _)]
    case hf =>
      intro k2 q hq
      dsimp only at hq
      split_ifs at hq with h1 h2
      rw [Option.some_inj] at hq
      subst hq
      simp only [Bool.and_eq_true, beq_iff_eq, Prod.ext_iff]
    · refine ite_one_zero_congr ?_
      constructor
      · rintro ⟨hmem, hsome⟩
        dsimp only at hsome
        split_ifs at hsome with h1 h2
        · simp at hsome
        · refine ⟨not_lt.mp h1, h2.1, ?_⟩
          intro tx htx
          exact h2.2 _ (List.mem_map_of_mem _ htx)
        · simp at hsome
      · rintro ⟨h3, hsum, hall⟩
        constructor
        · rw [mem_dedupKeys, List.mem_map]
          have hpos : 0 < (txs.filter (fun tx => txKey tx == (s, d))).length := by omega
          obtain ⟨a, ha⟩ := List.exists_mem_of_ne_nil _ (List.length_pos.mp hpos)
          rw [List.mem_filter] at ha
          exact ⟨a, ha.1, by simpa using ha.2⟩
        · dsimp only
          have hmapall : ∀ a ∈ (txs.filter (fun tx => txKey tx == (s, d))).map
              (fun tx => tx.amount), a < 10000 := by
            intro a ha
            obtain ⟨tx, htx, rfl⟩ := List.mem_map.mp ha
            exact hall tx htx
          rw [if_neg (not_lt.mpr h3), if_pos ⟨hsum, hmapall⟩]
          rfl
  · intro txs p hp
    rw [detect_structuring] at hp
    obtain ⟨k, _hk, hfk⟩ := List.mem_filterMap.mp hp
    dsimp only at hfk
    split_ifs at hfk with h1 h2
    rw [Option.some_inj] at hfk
    subst hfk
    rfl
  · have hk : dedupKeys (structTxs.map txKey) = [("E", 0)] := by decide
    have hg : structTxs.filter (fun tx => txKey tx == ("E", 0)) = structTxs := by decide
    have hm : structTxs.map (fun tx => tx.amount) = [3000, 3000, 3000, 3000] := by decide
    rw [detect_structuring, hk]
    simp only [List.filterMap_cons, List.filterMap_nil, hg, hm]
    norm_num [structTxs, structExpected, List.sum_cons, List.forall_mem_cons]

/-- C5 witness: the four-transaction instance, with its finding carrying
confidence 0.8 via the second conjunct of the theorem. -/
theorem structuring_correct_witness :
    structExpected ∈ detect_structuring structTxs ∧ structExpected.confidence = 8/10 :=
  have hmem : structExpected ∈ detect_structuring structTxs := by
    rw [structuring_correct.2.2]
    exact List.mem_singleton.mpr rfl
  ⟨hmem, structuring_correct.2.1 structTxs structExpected hmem⟩


/-! Claim C6: the layering detector. -/

/-- Invariant of the greedy chain builder: the grown chain stays linked
by ChainStep and keeps its head. -/
theorem buildChain_chain (txs : List Transaction) :
    ∀ (n : Nat) (current : Transaction) (chain : List Transaction),
      chain.getLast? = some current → List.Chain' ChainStep chain →
      List.Chain' ChainStep (buildChain txs n current chain)
      ∧ (buildChain txs n current chain).head? = chain.head? := by
  intro n
  induction n with
  | zero => intro current chain _ h2; exact ⟨h2, rfl⟩
  | succ n ih =>
    intro current chain hlast hchain
    rw [buildChain]
    by_cases hne : (txs.filter (fun t => t.sender_id == current.recipient_id)).isEmpty = true
    · rw [if_pos hne]; exact ⟨hchain, rfl⟩
    · rw [if_neg hne]
      cases hf : (txs.filter (fun t => t.sender_id == current.recipient_id)).find?
          (fun nt => nt.ts - current.ts < 3600) with
      | none => exact ⟨hchain, rfl⟩
      | some nt =>
        dsimp only
        by_cases hmem : chain.contains nt = true
        · rw [if_pos hmem]; exact ⟨hchain, rfl⟩
        · rw [if_neg hmem]
          have hstep : ChainStep current nt := by
            have h1 := List.find?_some hf
            have h2 := List.mem_of_find?_eq_some hf
            rw [List.mem_filter] at h2
            have h3 := h2.2
            rw [beq_iff_eq] at h3
            exact ⟨h3.symm, by simpa using h1⟩
          have hch2 : List.Chain' ChainStep (chain ++ [nt]) := by
            rw [List.chain'_append]
            refine ⟨hchain, List.chain'_singleton _, ?_⟩
            intro x hx y hy
            rw [hlast, Option.mem_some_iff] at hx
            rw [List.head?_cons, Option.mem_some_iff] at hy
            subst hx
            subst hy
            exact hstep
          have hlast2 : (chain ++ [nt]).getLast? = some nt := by
            rw [List.getLast?_concat]
          obtain ⟨ha, hb⟩ := ih nt (chain ++ [nt]) hlast2 hch2
          refine ⟨ha, ?_⟩
          rw [hb]
          cases chain with
          | nil => simp at hlast
          | cons c cs => simp

/-- C6 counterexample: a three-link chain with matching recipients and
100 second gaps in which no transaction carries a reference is not
flagged at all, refuting the claim that every such chain is flagged. -/
theorem layering_reference_cex :
    List.Chain' ChainStep chainNoRefTxs ∧ 3 ≤ chainNoRefTxs.length
    ∧ detect_layering chainNoRefTxs = [] := by
  refine ⟨?_, by decide, by decide⟩
  refine List.chain'_cons.mpr ⟨⟨rfl, by norm_num⟩,
    List.chain'_cons.mpr ⟨⟨rfl, by norm_num⟩, List.chain'_singleton _⟩⟩

/-- C6 (amended): the layering detector starts a chain only at
transactions with a truthy reference and follows one greedy chain per
start; every emitted finding comes from a genuine chain (consecutive
recipient-to-sender links less than 3600 seconds apart) of length at
least three starting at its reference-bearing transaction, and carries
confidence min(0.9, 0.2 times the chain length); the referenced
three-link chain is flagged with confidence 0.6. -/
theorem layering_correct :
    (∀ (txs : List Transaction), ∀ p ∈ detect_layering txs,
        3 ≤ p.chain_length
        ∧ p.confidence = min (9/10) ((p.chain_length : ℚ) * (2/10))
        ∧ ∃ tx ∈ txs, pyTruthy tx.reference = true ∧ ∃ chain : List Transaction,
            chain.head? = some tx ∧ List.Chain' ChainStep chain
            ∧ chain.length = p.chain_length ∧ p = mkLayeringPattern chain)
    ∧ detect_layering chainRefTxs = [layerExpected] := by
  constructor
  · intro txs p hp
    rw [detect_layering] at hp
    obtain ⟨tx, htx, hfx⟩ := List.mem_filterMap.mp hp
    dsimp only at hfx
    by_cases href : pyTruthy tx.reference = true
    · rw [if_pos href] at hfx
      by_cases hlen : 3 ≤ (buildChain txs 10 tx [tx]).length
      · rw [if_pos hlen] at hfx
        rw [Option.some_inj] at hfx
        subst hfx
        obtain ⟨hch, hhead⟩ := buildChain_chain txs 10 tx [tx] rfl (List.chain'_singleton _)
        exact ⟨hlen, rfl, tx, htx, href,
          buildChain txs 10 tx [tx], hhead, hch, rfl, rfl⟩
      · rw [if_neg hlen] at hfx
        exact absurd hfx (by simp)
    · rw [if_neg href] at hfx
      exact absurd hfx (by simp)
  · have hc : buildChain [⟨"u1", 0, 100, "transfer", "a", "b", some "r1", RiskLevel.low⟩,
        ⟨"u2", 100, 100, "transfer", "b", "c", none, RiskLevel.low⟩,
        ⟨"u3", 200, 100, "transfer", "c", "d", none, RiskLevel.low⟩] 10
        ⟨"u1", 0, 100, "transfer", "a", "b", some "r1", RiskLevel.low⟩
        [⟨"u1", 0, 100, "transfer", "a", "b", some "r1", RiskLevel.low⟩] =
        [⟨"u1", 0, 100, "transfer", "a", "b", some "r1", RiskLevel.low⟩,
         ⟨"u2", 100, 100, "transfer", "b", "c", none, RiskLevel.low⟩,
         ⟨"u3", 200, 100, "transfer", "c", "d", none, RiskLevel.low⟩] := by decide
    have he : (dedupKeys ["a", "b", "c", "b", "c", "d"]).length = 4 := by decide
    have hr : "r1".isEmpty = false := by decide
    simp only [detect_layering, chainRefTxs, List.filterMap_cons, List.filterMap_nil,
      pyTruthy, hc]
    norm_num [mkLayeringPattern, layerExpected, min_def, List.sum_cons, he, hr]

/-- C6 witness: the theorem instantiated at the referenced chain and its
emitted finding. -/
theorem layering_correct_witness :
    3 ≤ layerExpected.chain_length
    ∧ layerExpected.confidence = min (9/10) ((layerExpected.chain_length : ℚ) * (2/10))
    ∧ ∃ tx ∈ chainRefTxs, pyTruthy tx.reference = true ∧ ∃ chain : List Transaction,
        chain.head? = some tx ∧ List.Chain' ChainStep chain
        ∧ chain.length = layerExpected.chain_length
        ∧ layerExpected = mkLayeringPattern chain :=
  layering_correct.1 chainRefTxs layerExpected
    (by rw [layering_correct.2]; exact List.mem_singleton.mpr rfl)


/-! Claim C10: totality of the anomaly-detector wrapper. -/

/-- C10: detect_anomalies and get_anomaly_scores always return one value
per input transaction; an unfitted detector or an empty batch yields
all-False and all-0.0; fitting on an empty list returns the detector
unchanged, and a freshly built detector is unfitted, so fitting it on an
empty list leaves it unfitted. -/
theorem anomalyDetector_total :
    (∀ (d : AnomalyDetector) (txs : List Transaction),
        (d.detect_anomalies txs).length = txs.length
        ∧ (d.get_anomaly_scores txs).length = txs.length
        ∧ (d.is_fitted = false →
            d.detect_anomalies txs = List.replicate txs.length false
            ∧ d.get_anomaly_scores txs = List.replicate txs.length 0)
        ∧ (txs = [] →
            d.detect_anomalies txs = List.replicate txs.length false
            ∧ d.get_anomaly_scores txs = List.replicate txs.length 0)
        ∧ d.fit [] = d)
    ∧ (∀ (c : ℚ) (tf : List (List ℚ) → IsoForest) (tsc : List (List ℚ) → Scaler)
          (f0 : IsoForest) (s0 : Scaler),
        (mkAnomalyDetector c tf tsc f0 s0).is_fitted = false
        ∧ ((mkAnomalyDetector c tf tsc f0 s0).fit []).is_fitted = false) := by
  constructor
  · intro d txs
    refine ⟨?_, ?_, ?_, ?_, rfl⟩
    · rw [AnomalyDetector.detect_anomalies]
      by_cases h : (txs.isEmpty || !d.is_fitted) = true
      · rw [if_pos h, List.length_replicate]
      · rw [if_neg h]
        simp [extract_features]
    · rw [AnomalyDetector.get_anomaly_scores]
      by_cases h : (txs.isEmpty || !d.is_fitted) = true
      · rw [if_pos h, List.length_replicate]
      · rw [if_neg h]
        simp [extract_features]
    · intro hf
      constructor
      · rw [AnomalyDetector.detect_anomalies, if_pos (by simp [hf])]
      · rw [AnomalyDetector.get_anomaly_scores, if_pos (by simp [hf])]
    · intro he
      subst he
      constructor
      · rw [AnomalyDetector.detect_anomalies, if_pos (by simp)]
      · rw [AnomalyDetector.get_anomaly_scores, if_pos (by simp)]
  · intro c tf tsc f0 s0
    exact ⟨rfl, rfl⟩

/-- C10 witness: the concrete unfitted detector on the four-transaction
batch returns four False flags and four zero scores. -/
theorem anomalyDetector_total_witness :
    demoDetector.detect_anomalies structTxs = List.replicate structTxs.length false
    ∧ demoDetector.get_anomaly_scores structTxs = List.replicate structTxs.length 0 :=
  (anomalyDetector_total.1 demoDetector structTxs).2.2.1 rfl


/-! Claim C2: propagation of upstream dispatch failure. -/

/-- One dispatch step always appends exactly the dispatched id to the
log. -/
theorem execStep_dispatchLog (dispatch : Task → TaskResult) (q : String)
    (rr : List (String × TaskResult)) (acc : ExecState) (t : Task) :
    (execStep dispatch q rr acc t).dispatchLog = acc.dispatchLog ++ [t.id] := by
  rw [execStep]
  dsimp only [ExecState.record, ExecState.complete]
  split <;> split <;> rfl

/-- Completed ids grow only by the id of a successfully dispatched
task. -/
theorem execStep_mem_completed (dispatch : Task → TaskResult) (q : String)
    (rr : List (String × TaskResult)) (acc : ExecState) (t : Task) (x : String)
    (hx : x ∈ (execStep dispatch q rr acc t).completedIds) :
    x ∈ acc.completedIds
    ∨ (x = t.id ∧ (dispatch { t with payload := prepare_task_payload t rr q }).success = true) := by
  rw [execStep] at hx
  dsimp only [ExecState.record, ExecState.complete] at hx
  by_cases hs : (dispatch { t with payload := prepare_task_payload t rr q }).success = true
  · rw [if_pos hs] at hx
    dsimp only at hx
    by_cases hc : acc.completedIds.contains t.id = true
    · rw [if_pos hc] at hx
      exact Or.inl hx
    · rw [if_neg hc] at hx
      rcases List.mem_append.mp hx with h | h
      · exact Or.inl h
      · exact Or.inr ⟨List.mem_singleton.mp h, hs⟩
  · rw [if_neg hs] at hx
    exact Or.inl hx

/-- The results map gains no key other than the dispatched id. -/
theorem execStep_results_keys (dispatch : Task → TaskResult) (q : String)
    (rr : List (String × TaskResult)) (acc : ExecState) (t : Task) (b : String)
    (hb : t.id ≠ b) (hres : ∀ p ∈ acc.results, p.1 ≠ b) :
    ∀ p ∈ (execStep dispatch q rr acc t).results, p.1 ≠ b := by
  intro p hp
  rw [execStep] at hp
  dsimp only [ExecState.record, ExecState.complete] at hp
  by_cases hs : (dispatch { t with payload := prepare_task_payload t rr q }).success = true
  · rw [if_pos hs] at hp
    dsimp only at hp
    by_cases ha : acc.results.any (fun p => p.1 == t.id) = true
    · rw [if_pos ha] at hp
      obtain ⟨p0, hp0, hpe⟩ := List.mem_map.mp hp
      by_cases hpt : p0.1 == t.id
      · rw [if_pos hpt] at hpe
        rw [← hpe]
        exact hb
      · rw [if_neg hpt] at hpe
        rw [← hpe]
        exact hres p0 hp0
    · rw [if_neg ha] at hp
      rcases List.mem_append.mp hp with h | h
      · exact hres p h
      · rw [List.mem_singleton.mp h]
        exact hb
  · rw [if_neg hs] at hp
    dsimp only at hp
    by_cases ha : acc.results.any (fun p => p.1 == t.id) = true
    · rw [if_pos ha] at hp
      obtain ⟨p0, hp0, hpe⟩ := List.mem_map.mp hp
      by_cases hpt : p0.1 == t.id
      · rw [if_pos hpt] at hpe
        rw [← hpe]
        exact hb
      · rw [if_neg hpt] at hpe
        rw [← hpe]
        exact hres p0 hp0
    · rw [if_neg ha] at hp
      rcases List.mem_append.mp hp with h | h
      · exact hres p h
      · rw [List.mem_singleton.mp h]
        exact hb

/-- A step on a task that is not downstream of the blocked id preserves
the blocking invariant. -/
theorem execStep_blocked (g : TaskGraph) (dispatch : Task → TaskResult) (q : String)
    (rr : List (String × TaskResult)) (a : String)
    (hfail : ∀ t : Task, t.id = a → (dispatch t).success = false)
    (acc : ExecState) (t : Task)
    (ht : ∀ b, Downstream g a b → t.id ≠ b)
    (hinv : BlockedInv g a acc) :
    BlockedInv g a (execStep dispatch q rr acc t) := by
  obtain ⟨hna, hdown⟩ := hinv
  constructor
  · intro hmem
    rcases execStep_mem_completed dispatch q rr acc t a hmem with h | ⟨heq, hs⟩
    · exact hna h
    · have := hfail { t with payload := prepare_task_payload t rr q } heq.symm
      rw [this] at hs
      exact Bool.false_ne_true hs
  · intro b hb
    obtain ⟨hlog, hres, hcomp⟩ := hdown b hb
    refine ⟨?_, execStep_results_keys dispatch q rr acc t b (ht b hb) hres, ?_⟩
    · rw [execStep_dispatchLog]
      intro hmem
      rcases List.mem_append.mp hmem with h | h
      · exact hlog h
      · exact (ht b hb) (List.mem_singleton.mp h).symm
    · intro hmem
      rcases execStep_mem_completed dispatch q rr acc t b hmem with h | ⟨heq, _⟩
      · exact hcomp h
      · exact (ht b hb) heq.symm

/-- A whole round of dispatches preserves the blocking invariant when no
ready task is downstream of the blocked id. -/
theorem execRound_blocked (g : TaskGraph) (dispatch : Task → TaskResult) (q : String)
    (rr : List (String × TaskResult)) (a : String)
    (hfail : ∀ t : Task, t.id = a → (dispatch t).success = false) :
    ∀ (ts : List Task) (acc : ExecState),
      (∀ t ∈ ts, ∀ b, Downstream g a b → t.id ≠ b) →
      BlockedInv g a acc →
      BlockedInv g a (ts.foldl (execStep dispatch q rr) acc) := by
  intro ts
  induction ts with
  | nil => intro acc _ h; exact h
  | cons t ts ih =>
    intro acc hts h
    rw [List.foldl_cons]
    exact ih _ (fun u hu => hts u (List.mem_cons_of_mem _ hu))
      (execStep_blocked g dispatch q rr a hfail acc t
        (hts t (List.mem_cons_self _ _)) h)

/-- Under the blocking invariant no ready task carries an id downstream
of the blocked id, since its predecessor on the path is not completed. -/
theorem getReadyTasks_not_downstream (g : TaskGraph) (a : String) (st : ExecState)
    (hinv : BlockedInv g a st) :
    ∀ t ∈ g.get_ready_tasks st.completedIds, ∀ b, Downstream g a b → t.id ≠ b := by
  intro t ht b hb heq
  rw [TaskGraph.get_ready_tasks, mem_pySort, TaskGraph.readyPending, List.mem_filter] at ht
  obtain ⟨_, hpred⟩ := ht
  rw [Bool.and_eq_true, List.all_eq_true] at hpred
  obtain ⟨_, hall⟩ := hpred
  have hxblocked : ∃ x, (x, b) ∈ g.edges ∧ x ∉ st.completedIds := by
    cases hb with
    | single h => exact ⟨a, h, hinv.1⟩
    | tail hax h =>
      rename_i x
      exact ⟨x, h, (hinv.2 x hax).2.2⟩
  obtain ⟨x, hxe, hxc⟩ := hxblocked
  have := hall (x, b) hxe
  rw [heq] at this
  simp at this
  exact hxc (by simpa using this)

/-- The scheduling loop preserves the blocking invariant for any fuel. -/
theorem execLoop_blocked (g : TaskGraph) (dispatch : Task → TaskResult) (q a : String)
    (hfail : ∀ t : Task, t.id = a → (dispatch t).success = false) :
    ∀ (fuel : Nat) (st : ExecState), BlockedInv g a st →
      BlockedInv g a ((execLoop g dispatch q fuel st).state) := by
  intro fuel
  induction fuel with
  | zero => intro st h; exact h
  | succ n ih =>
    intro st h
    rw [execLoop]
    by_cases hc : g.is_complete st.completedIds = true
    · rw [if_pos hc]; exact h
    · rw [if_neg hc]
      by_cases hre : (g.get_ready_tasks st.completedIds).isEmpty = true
      · rw [if_pos hre]; exact h
      · rw [if_neg hre]
        exact ih _ (execRound_blocked g dispatch q st.results a hfail _ st
          (getReadyTasks_not_downstream g a st h) h)

/-- C2 counterexample: with A always failing and B depending on A, five
scheduling rounds record no TaskResult at all for B (in particular none
carrying a dependency-failure error, a kind absent from the code), never
dispatch B, and keep re-dispatching A every round. -/
theorem failedDependency_no_result_cex :
    ((execLoop graphAB failDispatch "q" 5 initExecState).state).results.find?
        (fun p => p.1 == "B") = none
    ∧ "B" ∉ ((execLoop graphAB failDispatch "q" 5 initExecState).state).dispatchLog
    ∧ ((execLoop graphAB failDispatch "q" 5 initExecState).state).dispatchLog
        = ["A", "A", "A", "A", "A"] := by decide

/-- C2 (amended): when every dispatch of tasks with id a fails, every id
reachable downstream of a along the edges is never dispatched (its
process is never invoked), never keyed in the results map (so no failed
TaskResult is recorded for it), and never completed, for any fuel. -/
theorem failedDependency_blocks :
    ∀ (g : TaskGraph) (dispatch : Task → TaskResult) (q a : String) (fuel : Nat),
      (∀ t : Task, t.id = a → (dispatch t).success = false) →
      ∀ b, Downstream g a b →
        b ∉ ((execLoop g dispatch q fuel initExecState).state).dispatchLog
        ∧ ((execLoop g dispatch q fuel initExecState).state).results.find?
            (fun p => p.1 == b) = none
        ∧ b ∉ ((execLoop g dispatch q fuel initExecState).state).completedIds := by
  intro g dispatch q a fuel hfail b hb
  have hinv0 : BlockedInv g a initExecState :=
    ⟨by simp [initExecState], fun b2 _ =>
      ⟨by simp [initExecState], by simp [initExecState], by simp [initExecState]⟩⟩
  have hinv := execLoop_blocked g dispatch q a hfail fuel initExecState hinv0
  obtain ⟨h1, h2, h3⟩ := hinv.2 b hb
  refine ⟨h1, ?_, h3⟩
  rw [List.find?_eq_none]
  intro p hp
  simp [h2 p hp]

/-- C2 witness: the concrete two-task chain with the failing dispatch. -/
theorem failedDependency_blocks_witness :
    "B" ∉ ((execLoop graphAB failDispatch "q" 4 initExecState).state).dispatchLog
    ∧ ((execLoop graphAB failDispatch "q" 4 initExecState).state).results.find?
        (fun p => p.1 == "B") = none
    ∧ "B" ∉ ((execLoop graphAB failDispatch "q" 4 initExecState).state).completedIds :=
  failedDependency_blocks graphAB failDispatch "q" "A" 4 (fun t _ => rfl)
    "B" (Relation.TransGen.single (by decide))


/-! Claim C7: cycles stall the scheduler without a distinct error. -/

/-- C7 counterexample: the stalled 2-cycle run and a completed cycle-free
run without a synthesize task surface the identical generic report
failure, so no distinct structural error is raised for the cycle. -/
theorem cycle_error_indistinct_cex :
    executeTaskGraph graphCycle failDispatch "q" 3
        = some (Except.error "Failed to generate final report")
    ∧ executeTaskGraph graphNoSynth okDispatch "q" 3
        = some (Except.error "Failed to generate final report") :=
  ⟨rfl, rfl⟩

/-- C7 (amended): in a graph where every task has an incoming edge (as in
a 2-cycle) no task is ever ready from the empty completed set, and on the
concrete 2-cycle the loop terminates immediately in the stalled state for
every fuel and every dispatch, after which the run fails with the same
generic report error as any run that produced no report, not with a
distinct structural error. -/
theorem cycle_stalls :
    (∀ g : TaskGraph, (∀ t ∈ g.tasks, ∃ e ∈ g.edges, e.2 = t.id) →
        g.get_ready_tasks [] = [])
    ∧ (∀ (dispatch : Task → TaskResult) (q : String) (fuel : Nat),
        execLoop graphCycle dispatch q (fuel + 1) initExecState
            = ExecOutcome.stalled initExecState
        ∧ executeTaskGraph graphCycle dispatch q (fuel + 1)
            = some (Except.error "Failed to generate final report")) := by
  constructor
  · intro g hin
    rw [TaskGraph.get_ready_tasks]
    have hrp : g.readyPending [] = [] := by
      rw [TaskGraph.readyPending, List.filter_eq_nil_iff]
      intro t ht
      obtain ⟨e, he, he2⟩ := hin t ht
      rw [Bool.and_eq_true]
      rintro ⟨_, hall⟩
      rw [List.all_eq_true] at hall
      have := hall e he
      simp [he2] at this
    rw [hrp]
    rfl
  · intro dispatch q fuel
    have h1 : execLoop graphCycle dispatch q (fuel + 1) initExecState
        = ExecOutcome.stalled initExecState := by
      rw [execLoop]
      rw [if_neg (by decide), if_pos (by decide)]
    refine ⟨h1, ?_⟩
    rw [executeTaskGraph, h1]
    rfl

/-- C7 witness: the theorem instantiated at the 2-cycle graph, the
failing dispatch and fuel one. -/
theorem cycle_stalls_witness :
    graphCycle.get_ready_tasks [] = []
    ∧ execLoop graphCycle failDispatch "q" 1 initExecState
        = ExecOutcome.stalled initExecState
    ∧ executeTaskGraph graphCycle failDispatch "q" 1
        = some (Except.error "Failed to generate final report") :=
  ⟨cycle_stalls.1 graphCycle (by decide),
    (cycle_stalls.2 failDispatch "q" 0).1, (cycle_stalls.2 failDispatch "q" 0).2⟩

end Spec2

